import Mathlib

/-!
Verification development for the `info_superiority` repository.

The embedding models `src/karkas.py` (ingestion pipeline: normalization,
deduplication against a store, keyword classification, enrichment,
analytics) and the duplicate-handling / classifier-fallback paths of
`src/api/app/main.py`.  Text is modelled as `List Char`; Python's
`str.lower`/`str.strip` are modelled over the ASCII range (the repository's
keyword table and examples are ASCII).  `difflib.SequenceMatcher.ratio`
with `isjunk=None` is modelled in full, including the default autojunk
handling: for a second sequence of 200 or more characters, characters
occurring in more than one percent of it are purged from the match index,
the junk-free phase of `find_longest_match` finds the longest purge-free
matching block (earliest in `a`, then in `b`), and the extension loops
then grow that block over any equal characters.  The similarity value is
represented as an exact rational; the SHA-256 fingerprint is an abstract
parameter `hsh`, so every theorem quantifying over `hsh` holds for the
real digest function in particular.
-/

set_option autoImplicit false

namespace InfoSup

/-- ASCII model of the whitespace test used by Python `str.strip`. -/
def isSpc (c : Char) : Bool :=
  c.toNat = 32 || c.toNat = 9 || c.toNat = 10 || c.toNat = 13

/-- ASCII model of Python `str.lower` on a single character:
`A`-`Z` maps to `a`-`z`, everything else is fixed. -/
def lowChar (c : Char) : Char :=
  if 65 ≤ c.toNat ∧ c.toNat ≤ 90 then Char.ofNat (c.toNat + 32) else c

/-- Python `str.lower` over a text. -/
def lowerList (t : List Char) : List Char :=
  t.map lowChar

/-- Python `str.strip`: drop whitespace from both ends. -/
def stripList (t : List Char) : List Char :=
  ((t.dropWhile isSpc).reverse.dropWhile isSpc).reverse

/-- Model of `Normalization.normalize` on the text field:
`record["text"].lower().strip()`. -/
def normalizeText (t : List Char) : List Char :=
  stripList (lowerList t)

/-- Length of the common run of equal characters at the heads of two
texts (the size of the matching block starting at a given pair of
positions, once the positions are dropped). -/
def commonRun : List Char → List Char → Nat
  | x :: xs, y :: ys => if x = y then commonRun xs ys + 1 else 0
  | _, _ => 0

/-- Length of the junk-free matching run at the heads of two texts: the
run stops at the first mismatch or at the first character of the second
text that the popularity predicate junks (purged characters have no `b2j`
entry in difflib, so the matching loop cannot pass through them). -/
def commonRunNoPop (pop : Char → Bool) : List Char → List Char → Nat
  | x :: xs, y :: ys =>
    if x = y ∧ pop y = false then commonRunNoPop pop xs ys + 1 else 0
  | _, _ => 0

/-- Autojunk of `difflib.SequenceMatcher` with the default `autojunk=True`
and no junk predicate: a character of `b` is purged from the match index
when `len(b) >= 200` and it occurs more than `len(b) // 100 + 1` times;
the predicate is computed once over the full second sequence and is shared
by every recursive call on sub-ranges. -/
def isPopular (b : List Char) (c : Char) : Bool :=
  decide (200 ≤ b.length) && decide (b.length / 100 + 1 < b.count c)

/-- Maximum of a list of naturals, 0 for the empty list. -/
def natMax (l : List Nat) : Nat :=
  l.foldr max 0

/-- All index pairs `(i, j)` with `i < al` and `j < bl` in lexicographic
order — the traversal order of difflib's matching loop. -/
def pairList (al bl : Nat) : List (Nat × Nat) :=
  (List.range al).flatMap (fun i => (List.range bl).map (fun j => (i, j)))

/-- Size of the longest junk-free matching block between two slices. -/
def bestK (pop : Char → Bool) (a b : List Char) : Nat :=
  natMax ((pairList a.length b.length).map
    (fun p => commonRunNoPop pop (a.drop p.1) (b.drop p.2)))

/-- Model of the junk-free phase of
`difflib.SequenceMatcher.find_longest_match`: the longest matching block
avoiding popular characters of the second sequence, ties resolved towards
the smallest `i` and then the smallest `j` (difflib keeps the first
strictly-larger match of its `i`-ascending, `j`-ascending loop);
`(0, 0, 0)` when there is no such block, as in difflib where
`besti, bestj, bestsize` start out as `alo, blo, 0`. -/
def bestMatch (pop : Char → Bool) (a b : List Char) : Nat × Nat × Nat :=
  if bestK pop a b = 0 then (0, 0, 0)
  else
    match (pairList a.length b.length).find?
        (fun p => decide (bestK pop a b ≤
          commonRunNoPop pop (a.drop p.1) (b.drop p.2))) with
    | some p => (p.1, p.2, bestK pop a b)
    | none => (0, 0, 0)

/-- Model of the extension loops of `find_longest_match`: with no junk
characters (`isjunk=None` makes `bjunk` empty) the junk-free block is
extended to the left and then to the right over any equal characters,
popular ones included. -/
def extMatch (pop : Char → Bool) (a b : List Char) : Nat × Nat × Nat :=
  let m := bestMatch pop a b
  let L := commonRun ((a.take m.1).reverse) ((b.take m.2.1).reverse)
  let R := commonRun (a.drop (m.1 + m.2.2)) (b.drop (m.2.1 + m.2.2))
  (m.1 - L, m.2.1 - L, m.2.2 + L + R)

/-- The recursion of `difflib.SequenceMatcher.get_matching_blocks`, summed:
total size of all matched blocks.  Structural fuel replaces the well-founded
recursion (each recursive call strictly shrinks the first slice, so
`a.length` steps always suffice, as the bound lemmas below show). -/
def matchTotalGo (pop : Char → Bool) : Nat → List Char → List Char → Nat
  | 0, _, _ => 0
  | fuel + 1, a, b =>
    let m := extMatch pop a b
    if 0 < m.2.2 then
      matchTotalGo pop fuel (a.take m.1) (b.take m.2.1) + m.2.2 +
        matchTotalGo pop fuel (a.drop (m.1 + m.2.2)) (b.drop (m.2.1 + m.2.2))
    else 0

/-- Total matched size between two texts, with the autojunk popularity
predicate computed from the full second text. -/
def matchTotal (a b : List Char) : Nat :=
  matchTotalGo (isPopular b) a.length a b

/-- Model of `difflib.SequenceMatcher.ratio`, as an exact rational:
`2 * matches / (len(a) + len(b))`, and `1` when both texts are empty
(difflib's `_calculate_ratio` returns `1.0` for total length zero). -/
def similarity (a b : List Char) : ℚ :=
  if a.length + b.length = 0 then 1
  else (2 * matchTotal a b : ℚ) / (a.length + b.length)

/-- Placeholder entities attached by `EnrichmentEngine.enrich`. -/
structure Entities where
  location : String
  timestamp : String
  actors : List String
deriving DecidableEq, Repr

/-- An in-flight event record (the Python dict flowing through the
pipeline); `category` and `entities` are `none` before the corresponding
stage has run. -/
structure Record where
  source : String
  text : List Char
  received_at : String
  meta : List (String × String)
  category : Option String
  entities : Option Entities
deriving DecidableEq, Repr

/-- Model of `DataIngestion.ingest`: strips the raw text and packs the record;
`received_at` (Python `datetime.utcnow()`) is an explicit argument. -/
def ingest (source : String) (text : List Char) (received_at : String)
    (meta : List (String × String)) : Record :=
  ⟨source, stripList text, received_at, meta, none, none⟩

/-- Model of `Normalization.normalize`: replaces the text by its lower-cased,
stripped form. -/
def normalize (r : Record) : Record :=
  ⟨r.source, normalizeText r.text, r.received_at, r.meta, r.category, r.entities⟩

/-- A row of the sqlite `events` table kept by `DeduplicationEngine`
(`id` is implicit in the list position; `meta` is kept structured rather
than JSON-serialized, which no claim observes). -/
structure Row where
  source : String
  text : List Char
  hash : String
  received_at : String
  meta : List (String × String)
deriving DecidableEq, Repr

/-- Model of `DeduplicationEngine.is_duplicate`: exact fingerprint lookup first,
then a full-table scan comparing `similarity text existing` against the
`0.9` threshold.  The digest `_hash` (SHA-256) is the abstract parameter
`hsh`. -/
def is_duplicate (hsh : List Char → String) (events : List Row)
    (text : List Char) : Bool :=
  if events.any (fun r => r.hash = hsh text) then true
  else events.any (fun r => decide ((9 : ℚ) / 10 < similarity text r.text))

/-- Model of `DeduplicationEngine.validate_and_store`: reject when the text is
shorter than 5 characters or a duplicate, otherwise append the row and
accept. -/
def validate_and_store (hsh : List Char → String) (record : Record)
    (events : List Row) : Bool × List Row :=
  let text := record.text
  if text.length < 5 || is_duplicate hsh events text then (false, events)
  else
    (true, events ++
      [⟨record.source, text, hsh text, record.received_at, record.meta⟩])

/-- The table `ClassificationEngine.CATEGORIES`, in Python dict insertion order. -/
def CATEGORIES : List (String × String) :=
  [("protest", "CIVIL_ACTIVITY"), ("threat", "SECURITY_ALERT"),
   ("outage", "INFRASTRUCTURE"), ("attack", "CRISIS_EVENT")]

/-- Python's substring test `needle in hay`. -/
def containsSub (needle : List Char) : List Char → Bool
  | [] => needle.isEmpty
  | c :: t => needle.isPrefixOf (c :: t) || containsSub needle t

/-- The keyword loop of `ClassificationEngine.classify`: first keyword of
the table that occurs in the text wins; no match gives `UNCLASSIFIED`. -/
def classifyLoop : List (String × String) → List Char → String
  | [], _ => "UNCLASSIFIED"
  | (kw, cat) :: rest, text =>
    if containsSub kw.toList text then cat else classifyLoop rest text

/-- Model of `ClassificationEngine.classify`: sets the category field, leaves the
rest of the record alone. -/
def classify (r : Record) : Record :=
  ⟨r.source, r.text, r.received_at, r.meta,
   some (classifyLoop CATEGORIES r.text), r.entities⟩

/-- Model of `EnrichmentEngine.enrich`: attaches the placeholder entities. -/
def enrich (r : Record) : Record :=
  ⟨r.source, r.text, r.received_at, r.meta, r.category,
   some ⟨"unknown", r.received_at, []⟩⟩

/-- One `summary[cat] = summary.get(cat, 0) + 1` step on the insertion
ordered association list modelling the Python dict. -/
def bump : List (String × Nat) → String → List (String × Nat)
  | [], cat => [(cat, 1)]
  | (c, n) :: rest, cat =>
    if c = cat then (c, n + 1) :: rest else (c, n) :: bump rest cat

/-- Python `r.get("category", "UNCLASSIFIED")`. -/
def catKey (r : Record) : String :=
  r.category.getD "UNCLASSIFIED"

/-- Model of `AnalyticsEngine.analyze`: category counts over a list of records. -/
def analyze (records : List Record) : List (String × Nat) :=
  records.foldl (fun s r => bump s (catKey r)) []

/-- Dict lookup on the summary, defaulting to 0 (absent key). -/
def lookupCount : List (String × Nat) → String → Nat
  | [], _ => 0
  | (c, n) :: rest, cat => if c = cat then n else lookupCount rest cat

/-- Sum of all counts in a summary. -/
def sumCounts (s : List (String × Nat)) : Nat :=
  (s.map (fun p => p.2)).sum

/-- The value returned by `process_event`. -/
structure ProcResult where
  status : String
  reason : Option String
  event : Option Record
deriving DecidableEq, Repr

/-- Model of `InformationSuperiorityPipeline.process_event`: ingest, normalize,
validate-and-store (short-circuiting to the rejection value), classify,
enrich. -/
def process_event (hsh : List Char → String) (source : String)
    (text : List Char) (received_at : String)
    (meta : List (String × String)) (events : List Row) :
    ProcResult × List Row :=
  let e := normalize (ingest source text received_at meta)
  let vs := validate_and_store hsh e events
  if vs.1 then (⟨"processed", none, some (enrich (classify e))⟩, vs.2)
  else (⟨"rejected", some "duplicate_or_invalid", none⟩, vs.2)

/-- The operations a client of the pipeline can run (the analytics calls
read the store or an explicit record list and never touch the table). -/
inductive Op where
  | processEvent (source : String) (text : List Char) (received_at : String)
      (meta : List (String × String))
  | analyzeAll
deriving Repr

/-- Effect of one operation on the events table. -/
def runOp (hsh : List Char → String) (events : List Row) : Op → List Row
  | .processEvent s t r m => (process_event hsh s t r m events).2
  | .analyzeAll => events

/-- Effect of a sequence of operations on the events table. -/
def runOps (hsh : List Char → String) (events : List Row)
    (ops : List Op) : List Row :=
  ops.foldl (runOp hsh) events

/-- Uniqueness of the `hash` column: no two stored rows share a fingerprint. -/
def UniqueHashes (events : List Row) : Prop :=
  (events.map (fun r => r.hash)).Nodup

/-- A scalar JSON value (string, number, or another scalar such as a
boolean or null) as a field of a decoded object — the values the API
layer reads and the DB driver can adapt; a nested object or array sitting
under a field is outside the model. -/
inductive Jv where
  | s (v : String)
  | n (v : ℚ)
  | other
deriving DecidableEq, Repr

/-- Python `dict.get` on a parsed JSON object. -/
def jget : List (String × Jv) → String → Option Jv
  | [], _ => none
  | (k, v) :: rest, key => if k = key then some v else jget rest key

/-- A row of the Postgres `events` table of `src/api/app/main.py`
(provenance is kept as the `ml` part, the only piece a claim observes). -/
structure ApiRow where
  source : String
  text : List Char
  received_at : String
  hash : String
  meta : List (String × String)
  category : Option Jv
  ml : List (String × Jv)
deriving DecidableEq, Repr

/-- The JSON body returned by the `/ingest` endpoint. -/
structure ApiResp where
  status : String
  reason : Option String
  id : Option Nat
  category : Option Jv
deriving DecidableEq, Repr

/-- A raised `HTTPException`. -/
structure HTTPExc where
  code : Nat
  msg : String
deriving DecidableEq, Repr

/-- Model of `make_hash`: digest of the stripped, lower-cased text. -/
def make_hash (hsh : List Char → String) (text : List Char) : String :=
  hsh (lowerList (stripList text))

/-- Model of `check_duplicate`: exact fingerprint lookup in the API store. -/
def check_duplicate (hsh : List Char → String) (store : List ApiRow)
    (text : List Char) : Bool :=
  store.any (fun r => r.hash = make_hash hsh text)

/-- Outcome of `requests.post(ML_STUB, ...)` followed by `r.json()`:
`failed` when either step raises (oracle unreachable, or the response body
does not decode as JSON) — the case the `except` clause catches; `obj j`
for a response decoding to a JSON object `j`; `nonObj` for a response
decoding to JSON that is not an object (a list, null, number or string),
on which the later `ml_out.get("category")` raises `AttributeError`. -/
inductive MLResp where
  | failed
  | obj (fields : List (String × Jv))
  | nonObj
deriving DecidableEq, Repr

/-- The `/ingest` endpoint of `src/api/app/main.py`.  An `Except.error`
models a raised exception leaving the handler (the explicit 400
`HTTPException` for short text, and the uncaught `AttributeError` — a 500
at the transport layer — when the decoded oracle response is not an
object); every business outcome is an `Except.ok` value. -/
def apiIngest (hsh : List Char → String) (oracle : MLResp) (source : String)
    (text : List Char) (meta : List (String × String))
    (received_at : String) (store : List ApiRow) :
    Except HTTPExc ApiResp × List ApiRow :=
  let t := stripList text
  if t.length < 5 then (Except.error ⟨400, "Text too short"⟩, store)
  else if check_duplicate hsh store t then
    (Except.ok ⟨"rejected", some "duplicate", none, none⟩, store)
  else
    match oracle with
    | MLResp.nonObj => (Except.error ⟨500, "AttributeError"⟩, store)
    | MLResp.failed =>
      let ml_out := [("category", Jv.s "UNCLASSIFIED"), ("confidence", Jv.n 0)]
      let cat := jget ml_out "category"
      (Except.ok ⟨"accepted", none, some store.length, cat⟩,
        store ++ [⟨source, t, received_at, make_hash hsh t, meta, cat, ml_out⟩])
    | MLResp.obj j =>
      let cat := jget j "category"
      (Except.ok ⟨"accepted", none, some store.length, cat⟩,
        store ++ [⟨source, t, received_at, make_hash hsh t, meta, cat, j⟩])

/-! ### Normalization lemmas -/

theorem lowChar_eq (c : Char) :
    lowChar c =
      if 65 ≤ c.toNat ∧ c.toNat ≤ 90 then Char.ofNat (c.toNat + 32) else c :=
  rfl

theorem charOfNat_toNat {n : Nat} (h : n < 55296) :
    (Char.ofNat n).toNat = n := by
  have hv : n.isValidChar := Or.inl h
  unfold Char.ofNat
  rw [dif_pos hv]
  rfl

theorem lowChar_toNat (c : Char) :
    (lowChar c).toNat =
      if 65 ≤ c.toNat ∧ c.toNat ≤ 90 then c.toNat + 32 else c.toNat := by
  rw [lowChar_eq]
  by_cases h : 65 ≤ c.toNat ∧ c.toNat ≤ 90
  · rw [if_pos h, if_pos h, charOfNat_toNat (by omega)]
  · rw [if_neg h, if_neg h]

theorem lowChar_lowChar (c : Char) : lowChar (lowChar c) = lowChar c := by
  by_cases h : 65 ≤ c.toNat ∧ c.toNat ≤ 90
  · have ht : (lowChar c).toNat = c.toNat + 32 := by
      rw [lowChar_toNat, if_pos h]
    have hn : ¬(65 ≤ (lowChar c).toNat ∧ (lowChar c).toNat ≤ 90) := by
      rw [ht]; omega
    rw [lowChar_eq (lowChar c), if_neg hn]
  · have hc : lowChar c = c := by rw [lowChar_eq, if_neg h]
    rw [hc]
    exact hc

theorem isSpc_lowChar (c : Char) : isSpc (lowChar c) = isSpc c := by
  unfold isSpc
  rw [lowChar_toNat]
  by_cases h : 65 ≤ c.toNat ∧ c.toNat ≤ 90
  · rw [if_pos h]
    have e1 : decide (c.toNat + 32 = 32) = false := decide_eq_false (by omega)
    have e2 : decide (c.toNat + 32 = 9) = false := decide_eq_false (by omega)
    have e3 : decide (c.toNat + 32 = 10) = false := decide_eq_false (by omega)
    have e4 : decide (c.toNat + 32 = 13) = false := decide_eq_false (by omega)
    have f1 : decide (c.toNat = 32) = false := decide_eq_false (by omega)
    have f2 : decide (c.toNat = 9) = false := decide_eq_false (by omega)
    have f3 : decide (c.toNat = 10) = false := decide_eq_false (by omega)
    have f4 : decide (c.toNat = 13) = false := decide_eq_false (by omega)
    rw [e1, e2, e3, e4, f1, f2, f3, f4]
  · rw [if_neg h]

theorem dropWhile_dropWhile (p : Char → Bool) (l : List Char) :
    (l.dropWhile p).dropWhile p = l.dropWhile p := by
  induction l with
  | nil => rfl
  | cons a t ih =>
    by_cases h : p a
    · simp [List.dropWhile_cons, h, ih]
    · simp [List.dropWhile_cons, h]

theorem head_dropWhile (p : Char → Bool) (l : List Char) :
    ∀ a, (l.dropWhile p).head? = some a → p a = false := by
  induction l with
  | nil => intro a h; simp at h
  | cons b t ih =>
    intro a h
    by_cases hb : p b
    · exact ih a (by simpa [List.dropWhile_cons, hb] using h)
    · simp [List.dropWhile_cons, hb] at h
      rw [← h]
      simpa using hb

theorem getLast_dropWhile (p : Char → Bool) (l : List Char)
    (h : l.dropWhile p ≠ []) : (l.dropWhile p).getLast? = l.getLast? := by
  induction l with
  | nil => simp at h
  | cons a t ih =>
    by_cases ha : p a
    · rw [List.dropWhile_cons, if_pos ha] at h ⊢
      cases t with
      | nil => simp at h
      | cons b s =>
        rw [List.getLast?_cons_cons]
        exact ih h
    · rw [List.dropWhile_cons, if_neg ha]

theorem stripList_head (t : List Char) :
    ∀ a, (stripList t).head? = some a → isSpc a = false := by
  intro a h
  have hne : stripList t ≠ [] := by
    intro hnil; rw [hnil] at h; simp at h
  unfold stripList at h hne
  have hne2 : ((t.dropWhile isSpc).reverse.dropWhile isSpc) ≠ [] := by
    intro hnil; rw [hnil] at hne; simp at hne
  rw [List.head?_reverse, getLast_dropWhile _ _ hne2, List.getLast?_reverse] at h
  exact head_dropWhile _ _ a h

theorem stripList_getLast (t : List Char) :
    ∀ a, (stripList t).getLast? = some a → isSpc a = false := by
  intro a h
  unfold stripList at h
  rw [List.getLast?_reverse] at h
  exact head_dropWhile _ _ a h

theorem stripList_eq_self (l : List Char)
    (h1 : ∀ a, l.head? = some a → isSpc a = false)
    (h2 : ∀ a, l.getLast? = some a → isSpc a = false) :
    stripList l = l := by
  have hd : l.dropWhile isSpc = l := by
    cases l with
    | nil => rfl
    | cons a t =>
      rw [List.dropWhile_cons, if_neg]
      rw [h1 a rfl]
      simp
  have hr : l.reverse.dropWhile isSpc = l.reverse := by
    cases hrev : l.reverse with
    | nil => rfl
    | cons a t =>
      rw [List.dropWhile_cons, if_neg]
      have : l.getLast? = some a := by
        rw [← List.head?_reverse, hrev]; rfl
      rw [h2 a this]
      simp
  unfold stripList
  rw [hd, hr, List.reverse_reverse]

theorem stripList_stripList (t : List Char) :
    stripList (stripList t) = stripList t :=
  stripList_eq_self _ (stripList_head t) (stripList_getLast t)

theorem mem_stripList {a : Char} {t : List Char} (h : a ∈ stripList t) :
    a ∈ t := by
  unfold stripList at h
  rw [List.mem_reverse] at h
  have h2 := (List.dropWhile_sublist isSpc).subset h
  rw [List.mem_reverse] at h2
  exact (List.dropWhile_sublist isSpc).subset h2

theorem lowerList_stripList_lowerList (t : List Char) :
    lowerList (stripList (lowerList t)) = stripList (lowerList t) := by
  have hfix : ∀ a ∈ stripList (lowerList t), lowChar a = a := by
    intro a ha
    have : a ∈ lowerList t := mem_stripList ha
    obtain ⟨b, _, rfl⟩ := List.mem_map.1 this
    exact lowChar_lowChar b
  unfold lowerList
  exact (List.map_congr_left hfix).trans (List.map_id _)

theorem normalizeText_normalizeText (t : List Char) :
    normalizeText (normalizeText t) = normalizeText t := by
  unfold normalizeText
  rw [lowerList_stripList_lowerList, stripList_stripList]

theorem normalize_normalize (r : Record) :
    normalize (normalize r) = normalize r := by
  unfold normalize
  simp [normalizeText_normalizeText]

/-! ### Similarity lemmas -/

theorem commonRun_self (l : List Char) : commonRun l l = l.length := by
  induction l with
  | nil => rfl
  | cons a t ih => simp [commonRun, ih]

theorem commonRun_le_left : ∀ a b : List Char, commonRun a b ≤ a.length
  | [], _ => Nat.le_refl 0
  | _ :: _, [] => Nat.zero_le _
  | x :: xs, y :: ys => by
    by_cases h : x = y
    · simpa [commonRun, h] using commonRun_le_left xs ys
    · simp [commonRun, h]

theorem commonRun_le_right : ∀ a b : List Char, commonRun a b ≤ b.length
  | [], _ => Nat.zero_le _
  | _ :: _, [] => Nat.le_refl 0
  | x :: xs, y :: ys => by
    by_cases h : x = y
    · simpa [commonRun, h] using commonRun_le_right xs ys
    · simp [commonRun, h]

theorem commonRun_pos_mem {a b : List Char} (h : 0 < commonRun a b) :
    ∃ c, c ∈ a ∧ c ∈ b := by
  match a, b with
  | [], _ => simp [commonRun] at h
  | _ :: _, [] => simp [commonRun] at h
  | x :: xs, y :: ys =>
    by_cases hxy : x = y
    · exact ⟨x, List.mem_cons_self x xs, hxy ▸ List.mem_cons_self y ys⟩
    · simp [commonRun, hxy] at h

theorem commonRunNoPop_le_left (pop : Char → Bool) :
    ∀ a b : List Char, commonRunNoPop pop a b ≤ a.length
  | [], _ => Nat.le_refl 0
  | _ :: _, [] => Nat.zero_le _
  | x :: xs, y :: ys => by
    by_cases h : x = y ∧ pop y = false
    · simpa [commonRunNoPop, h] using commonRunNoPop_le_left pop xs ys
    · simp [commonRunNoPop, h]

theorem commonRunNoPop_le_right (pop : Char → Bool) :
    ∀ a b : List Char, commonRunNoPop pop a b ≤ b.length
  | [], _ => Nat.zero_le _
  | _ :: _, [] => Nat.le_refl 0
  | x :: xs, y :: ys => by
    by_cases h : x = y ∧ pop y = false
    · simpa [commonRunNoPop, h] using commonRunNoPop_le_right pop xs ys
    · simp [commonRunNoPop, h]

theorem commonRunNoPop_pos_mem (pop : Char → Bool) {a b : List Char}
    (h : 0 < commonRunNoPop pop a b) : ∃ c, c ∈ a ∧ c ∈ b := by
  match a, b with
  | [], _ => simp [commonRunNoPop] at h
  | _ :: _, [] => simp [commonRunNoPop] at h
  | x :: xs, y :: ys =>
    by_cases hxy : x = y ∧ pop y = false
    · exact ⟨x, List.mem_cons_self x xs, hxy.1 ▸ List.mem_cons_self y ys⟩
    · simp [commonRunNoPop, hxy] at h

theorem commonRunNoPop_le_self_left (pop : Char → Bool) :
    ∀ a b : List Char, commonRunNoPop pop a b ≤ commonRunNoPop pop a a
  | [], _ => Nat.zero_le _
  | _ :: _, [] => Nat.zero_le _
  | x :: xs, y :: ys => by
    by_cases h : x = y ∧ pop y = false
    · obtain ⟨he, hp⟩ := h
      subst he
      simp only [commonRunNoPop, hp, and_self, if_pos, and_true, eq_self_iff_true,
        if_true]
      have := commonRunNoPop_le_self_left pop xs ys
      simp [hp]
      omega
    · simp [commonRunNoPop, h]

theorem commonRunNoPop_le_self_right (pop : Char → Bool) :
    ∀ a b : List Char, commonRunNoPop pop a b ≤ commonRunNoPop pop b b
  | [], _ => Nat.zero_le _
  | _ :: _, [] => Nat.zero_le _
  | x :: xs, y :: ys => by
    by_cases h : x = y ∧ pop y = false
    · obtain ⟨he, hp⟩ := h
      subst he
      have := commonRunNoPop_le_self_right pop xs ys
      simp [commonRunNoPop, hp]
      omega
    · simp [commonRunNoPop, h]

theorem le_natMax {x : Nat} : ∀ {l : List Nat}, x ∈ l → x ≤ natMax l := by
  intro l
  induction l with
  | nil => intro h; simp at h
  | cons a t ih =>
    intro h
    rcases List.mem_cons.1 h with rfl | h
    · show x ≤ max x (natMax t)
      exact Nat.le_max_left _ _
    · exact Nat.le_trans (ih h) (Nat.le_max_right _ _)

theorem natMax_mem : ∀ (l : List Nat), natMax l = 0 ∨ natMax l ∈ l := by
  intro l
  induction l with
  | nil => exact Or.inl rfl
  | cons a t ih =>
    show (max a (natMax t) = 0 ∨ max a (natMax t) ∈ a :: t)
    rcases Nat.le_total (natMax t) a with h | h
    · right
      rw [Nat.max_eq_left h]
      exact List.mem_cons_self a t
    · rcases ih with h0 | hm
      · left
        rw [Nat.max_eq_right h, h0]
      · right
        rw [Nat.max_eq_right h]
        exact List.mem_cons_of_mem a hm

theorem mem_pairList {p : Nat × Nat} {al bl : Nat} :
    p ∈ pairList al bl ↔ p.1 < al ∧ p.2 < bl := by
  unfold pairList
  constructor
  · intro h
    rw [List.mem_flatMap] at h
    obtain ⟨i, hi, hmem⟩ := h
    rw [List.mem_map] at hmem
    obtain ⟨j, hj, rfl⟩ := hmem
    exact ⟨List.mem_range.1 hi, List.mem_range.1 hj⟩
  · intro h
    rw [List.mem_flatMap]
    exact ⟨p.1, List.mem_range.2 h.1,
      List.mem_map.2 ⟨p.2, List.mem_range.2 h.2, rfl⟩⟩

/-- Strict lexicographic order on index pairs — the traversal order of the
matching loop. -/
def pairLt (p q : Nat × Nat) : Prop :=
  p.1 < q.1 ∨ (p.1 = q.1 ∧ p.2 < q.2)

theorem pairList_succ (n bl : Nat) :
    pairList (n + 1) bl = pairList n bl ++ (List.range bl).map (fun j => (n, j)) := by
  unfold pairList
  rw [List.range_succ, List.flatMap_append]
  simp

theorem pairList_pairwise (al bl : Nat) : (pairList al bl).Pairwise pairLt := by
  induction al with
  | zero => simp [pairList]
  | succ n ih =>
    rw [pairList_succ, List.pairwise_append]
    refine ⟨ih, ?_, ?_⟩
    · rw [List.pairwise_map]
      exact (List.pairwise_lt_range bl).imp (fun h => Or.inr ⟨rfl, h⟩)
    · intro p hp q hq
      obtain ⟨j, _, rfl⟩ := List.mem_map.1 hq
      exact Or.inl (mem_pairList.1 hp).1

theorem find?_min {α : Type} (r : α → α → Prop) (p : α → Bool) :
    ∀ (l : List α), l.Pairwise r → ∀ x, l.find? p = some x →
      ∀ y ∈ l, p y = true → x = y ∨ r x y := by
  intro l
  induction l with
  | nil => intro _ x hx; simp at hx
  | cons a t ih =>
    intro hpw x hx y hy hpy
    cases hpa : p a with
    | true =>
      rw [List.find?_cons_of_pos _ hpa] at hx
      injection hx with hx
      subst hx
      rcases List.mem_cons.1 hy with rfl | hyt
      · exact Or.inl rfl
      · exact Or.inr ((List.pairwise_cons.1 hpw).1 y hyt)
    | false =>
      rw [List.find?_cons_of_neg _ (by simp [hpa])] at hx
      rcases List.mem_cons.1 hy with rfl | hyt
      · simp [hpy] at hpa
      · exact ih (List.pairwise_cons.1 hpw).2 x hx y hyt hpy

theorem bestK_ge (pop : Char → Bool) (a b : List Char) {i j : Nat}
    (hi : i < a.length) (hj : j < b.length) :
    commonRunNoPop pop (a.drop i) (b.drop j) ≤ bestK pop a b := by
  apply le_natMax
  rw [List.mem_map]
  exact ⟨(i, j), mem_pairList.2 ⟨hi, hj⟩, rfl⟩

theorem bestMatch_spec (pop : Char → Bool) (a b : List Char)
    (h : 0 < (bestMatch pop a b).2.2) :
    (bestMatch pop a b).1 < a.length ∧ (bestMatch pop a b).2.1 < b.length ∧
    (bestMatch pop a b).2.2 =
      commonRunNoPop pop (a.drop (bestMatch pop a b).1)
        (b.drop (bestMatch pop a b).2.1) ∧
    (bestMatch pop a b).2.2 = bestK pop a b := by
  unfold bestMatch at h ⊢
  by_cases h0 : bestK pop a b = 0
  · rw [if_pos h0] at h
    simp at h
  · rw [if_neg h0] at h ⊢
    cases hf : (pairList a.length b.length).find?
        (fun p => decide (bestK pop a b ≤
          commonRunNoPop pop (a.drop p.1) (b.drop p.2))) with
    | none => rw [hf] at h; simp at h
    | some p =>
      rw [hf] at h
      dsimp only at h ⊢
      have hmem := List.mem_of_find?_eq_some hf
      have hbounds := mem_pairList.1 hmem
      have hge : bestK pop a b ≤
          commonRunNoPop pop (a.drop p.1) (b.drop p.2) := by
        have := List.find?_some hf
        simpa using this
      have hle : commonRunNoPop pop (a.drop p.1) (b.drop p.2) ≤
          bestK pop a b := bestK_ge pop a b hbounds.1 hbounds.2
      exact ⟨hbounds.1, hbounds.2, Nat.le_antisymm hge hle, rfl⟩

theorem bestMatch_k_zero (pop : Char → Bool) (a b : List Char)
    (h : (bestMatch pop a b).2.2 = 0) : bestMatch pop a b = (0, 0, 0) := by
  unfold bestMatch at h ⊢
  by_cases h0 : bestK pop a b = 0
  · rw [if_pos h0]
  · rw [if_neg h0] at h ⊢
    cases hf : (pairList a.length b.length).find?
        (fun p => decide (bestK pop a b ≤
          commonRunNoPop pop (a.drop p.1) (b.drop p.2))) with
    | none => rfl
    | some p =>
      rw [hf] at h
      dsimp only at h
      exact absurd h h0

theorem bestMatch_le_run (pop : Char → Bool) (a b : List Char) :
    (bestMatch pop a b).2.2 ≤
      commonRunNoPop pop (a.drop (bestMatch pop a b).1)
        (b.drop (bestMatch pop a b).2.1) := by
  by_cases h : 0 < (bestMatch pop a b).2.2
  · exact Nat.le_of_eq (bestMatch_spec pop a b h).2.2.1
  · have hz : (bestMatch pop a b).2.2 = 0 := by omega
    rw [hz]
    exact Nat.zero_le _

theorem bestMatch_first (pop : Char → Bool) (a b : List Char)
    (h : 0 < (bestMatch pop a b).2.2) {i j : Nat} (hi : i < a.length)
    (hj : j < b.length)
    (hlt : pairLt (i, j) ((bestMatch pop a b).1, (bestMatch pop a b).2.1)) :
    commonRunNoPop pop (a.drop i) (b.drop j) < (bestMatch pop a b).2.2 := by
  unfold bestMatch at h hlt ⊢
  by_cases h0 : bestK pop a b = 0
  · rw [if_pos h0] at h
    simp at h
  · rw [if_neg h0] at h hlt ⊢
    cases hf : (pairList a.length b.length).find?
        (fun p => decide (bestK pop a b ≤
          commonRunNoPop pop (a.drop p.1) (b.drop p.2))) with
    | none => rw [hf] at h; simp at h
    | some p =>
      rw [hf] at h hlt
      dsimp only at h hlt ⊢
      by_contra hge
      push_neg at hge
      have hpy : (fun q : Nat × Nat => decide (bestK pop a b ≤
          commonRunNoPop pop (a.drop q.1) (b.drop q.2))) (i, j) = true :=
        decide_eq_true hge
      have hmin := find?_min pairLt _ _ (pairList_pairwise a.length b.length)
        p hf (i, j) (mem_pairList.2 ⟨hi, hj⟩) hpy
      rcases hmin with he | hpl
      · subst he
        simp [pairLt] at hlt
      · simp [pairLt] at hlt hpl
        omega

theorem bestMatch_self_diag (pop : Char → Bool) (a : List Char)
    (h : 0 < (bestMatch pop a a).2.2) :
    (bestMatch pop a a).1 = (bestMatch pop a a).2.1 := by
  obtain ⟨hi, hj, hrun, _⟩ := bestMatch_spec pop a a h
  rcases Nat.lt_trichotomy (bestMatch pop a a).1 (bestMatch pop a a).2.1
    with hij | heq | hji
  · exfalso
    have hd : commonRunNoPop pop (a.drop (bestMatch pop a a).1)
        (a.drop (bestMatch pop a a).1) < (bestMatch pop a a).2.2 :=
      bestMatch_first pop a a h hi hi (Or.inr ⟨rfl, hij⟩)
    have hu : (bestMatch pop a a).2.2 ≤
        commonRunNoPop pop (a.drop (bestMatch pop a a).1)
          (a.drop (bestMatch pop a a).1) := by
      rw [hrun]
      exact commonRunNoPop_le_self_left pop _ _
    omega
  · exact heq
  · exfalso
    have hd : commonRunNoPop pop (a.drop (bestMatch pop a a).2.1)
        (a.drop (bestMatch pop a a).2.1) < (bestMatch pop a a).2.2 :=
      bestMatch_first pop a a h hj hj (Or.inl hji)
    have hu : (bestMatch pop a a).2.2 ≤
        commonRunNoPop pop (a.drop (bestMatch pop a a).2.1)
          (a.drop (bestMatch pop a a).2.1) := by
      rw [hrun]
      exact commonRunNoPop_le_self_right pop _ _
    omega

theorem extMatch_def (pop : Char → Bool) (a b : List Char) :
    extMatch pop a b =
      ((bestMatch pop a b).1 -
         commonRun ((a.take (bestMatch pop a b).1).reverse)
           ((b.take (bestMatch pop a b).2.1).reverse),
       (bestMatch pop a b).2.1 -
         commonRun ((a.take (bestMatch pop a b).1).reverse)
           ((b.take (bestMatch pop a b).2.1).reverse),
       (bestMatch pop a b).2.2 +
         commonRun ((a.take (bestMatch pop a b).1).reverse)
           ((b.take (bestMatch pop a b).2.1).reverse) +
         commonRun (a.drop ((bestMatch pop a b).1 + (bestMatch pop a b).2.2))
           (b.drop ((bestMatch pop a b).2.1 + (bestMatch pop a b).2.2))) :=
  rfl

theorem extMatch_le (pop : Char → Bool) (a b : List Char) :
    (extMatch pop a b).1 + (extMatch pop a b).2.2 ≤ a.length ∧
    (extMatch pop a b).2.1 + (extMatch pop a b).2.2 ≤ b.length := by
  rw [extMatch_def]
  dsimp only
  have hL1 : commonRun ((a.take (bestMatch pop a b).1).reverse)
      ((b.take (bestMatch pop a b).2.1).reverse) ≤ (a.take (bestMatch pop a b).1).length := by
    have := commonRun_le_left ((a.take (bestMatch pop a b).1).reverse)
      ((b.take (bestMatch pop a b).2.1).reverse)
    simpa using this
  have hL2 : commonRun ((a.take (bestMatch pop a b).1).reverse)
      ((b.take (bestMatch pop a b).2.1).reverse) ≤ (b.take (bestMatch pop a b).2.1).length := by
    have := commonRun_le_right ((a.take (bestMatch pop a b).1).reverse)
      ((b.take (bestMatch pop a b).2.1).reverse)
    simpa using this
  rw [List.length_take] at hL1 hL2
  have hR1 : commonRun (a.drop ((bestMatch pop a b).1 + (bestMatch pop a b).2.2))
      (b.drop ((bestMatch pop a b).2.1 + (bestMatch pop a b).2.2)) ≤
      a.length - ((bestMatch pop a b).1 + (bestMatch pop a b).2.2) := by
    have := commonRun_le_left
      (a.drop ((bestMatch pop a b).1 + (bestMatch pop a b).2.2))
      (b.drop ((bestMatch pop a b).2.1 + (bestMatch pop a b).2.2))
    simpa using this
  have hR2 : commonRun (a.drop ((bestMatch pop a b).1 + (bestMatch pop a b).2.2))
      (b.drop ((bestMatch pop a b).2.1 + (bestMatch pop a b).2.2)) ≤
      b.length - ((bestMatch pop a b).2.1 + (bestMatch pop a b).2.2) := by
    have := commonRun_le_right
      (a.drop ((bestMatch pop a b).1 + (bestMatch pop a b).2.2))
      (b.drop ((bestMatch pop a b).2.1 + (bestMatch pop a b).2.2))
    simpa using this
  rcases Nat.eq_zero_or_pos (bestMatch pop a b).2.2 with hk0 | hkpos
  · have h000 := bestMatch_k_zero pop a b hk0
    have e1 : (bestMatch pop a b).1 = 0 := by rw [h000]
    have e2 : (bestMatch pop a b).2.1 = 0 := by rw [h000]
    rw [e1, e2] at hL1 hL2 hR1 hR2 ⊢
    rw [hk0] at hR1 hR2 ⊢
    constructor <;> omega
  · have hb1 : (bestMatch pop a b).2.2 ≤
        a.length - (bestMatch pop a b).1 := by
      have h1 := bestMatch_le_run pop a b
      have h2 := commonRunNoPop_le_left pop
        (a.drop (bestMatch pop a b).1) (b.drop (bestMatch pop a b).2.1)
      rw [List.length_drop] at h2
      omega
    have hb2 : (bestMatch pop a b).2.2 ≤
        b.length - (bestMatch pop a b).2.1 := by
      have h1 := bestMatch_le_run pop a b
      have h2 := commonRunNoPop_le_right pop
        (a.drop (bestMatch pop a b).1) (b.drop (bestMatch pop a b).2.1)
      rw [List.length_drop] at h2
      omega
    obtain ⟨hi, hj, _, _⟩ := bestMatch_spec pop a b hkpos
    constructor <;> omega

theorem matchTotalGo_le (pop : Char → Bool) (fuel : Nat) :
    ∀ a b : List Char,
      matchTotalGo pop fuel a b ≤ a.length ∧
        matchTotalGo pop fuel a b ≤ b.length := by
  induction fuel with
  | zero => intro a b; exact ⟨Nat.zero_le _, Nat.zero_le _⟩
  | succ f ih =>
    intro a b
    show (if 0 < (extMatch pop a b).2.2 then _ else 0) ≤ a.length ∧
      (if 0 < (extMatch pop a b).2.2 then _ else 0) ≤ b.length
    split
    · next hpos =>
      obtain ⟨hea, heb⟩ := extMatch_le pop a b
      obtain ⟨h1a, h1b⟩ := ih (a.take (extMatch pop a b).1)
        (b.take (extMatch pop a b).2.1)
      obtain ⟨h2a, h2b⟩ := ih
        (a.drop ((extMatch pop a b).1 + (extMatch pop a b).2.2))
        (b.drop ((extMatch pop a b).2.1 + (extMatch pop a b).2.2))
      rw [List.length_take] at h1a h1b
      rw [List.length_drop] at h2a h2b
      omega
    · exact ⟨Nat.zero_le _, Nat.zero_le _⟩

theorem matchTotal_le_left (a b : List Char) : matchTotal a b ≤ a.length :=
  (matchTotalGo_le (isPopular b) a.length a b).1

theorem matchTotal_le_right (a b : List Char) : matchTotal a b ≤ b.length :=
  (matchTotalGo_le (isPopular b) a.length a b).2

theorem extMatch_self (pop : Char → Bool) (a : List Char) :
    extMatch pop a a = (0, 0, a.length) := by
  rcases Nat.eq_zero_or_pos (bestMatch pop a a).2.2 with hk0 | hkpos
  · have h000 := bestMatch_k_zero pop a a hk0
    rw [extMatch_def, h000]
    simp [commonRun_self]
  · obtain ⟨hi, hj, hrun, _⟩ := bestMatch_spec pop a a hkpos
    have hdiag := bestMatch_self_diag pop a hkpos
    rw [← hdiag] at hrun
    have hbound : (bestMatch pop a a).1 + (bestMatch pop a a).2.2 ≤
        a.length := by
      have h2 := commonRunNoPop_le_left pop
        (a.drop (bestMatch pop a a).1) (a.drop (bestMatch pop a a).1)
      rw [List.length_drop] at h2
      omega
    rw [extMatch_def, ← hdiag]
    have hL : commonRun ((a.take (bestMatch pop a a).1).reverse)
        ((a.take (bestMatch pop a a).1).reverse) = (bestMatch pop a a).1 := by
      rw [commonRun_self, List.length_reverse, List.length_take,
        Nat.min_eq_left (Nat.le_of_lt hi)]
    have hR : commonRun
        (a.drop ((bestMatch pop a a).1 + (bestMatch pop a a).2.2))
        (a.drop ((bestMatch pop a a).1 + (bestMatch pop a a).2.2)) =
        a.length - ((bestMatch pop a a).1 + (bestMatch pop a a).2.2) := by
      rw [commonRun_self, List.length_drop]
    rw [hL, hR, Nat.sub_self]
    have h3 : (bestMatch pop a a).2.2 + (bestMatch pop a a).1 +
        (a.length - ((bestMatch pop a a).1 + (bestMatch pop a a).2.2)) =
        a.length := by omega
    rw [h3]

theorem matchTotalGo_nil (pop : Char → Bool) (fuel : Nat) :
    matchTotalGo pop fuel [] [] = 0 := by
  cases fuel with
  | zero => rfl
  | succ f =>
    simp only [matchTotalGo]
    rw [extMatch_self]
    simp

theorem matchTotalGo_self (pop : Char → Bool) :
    ∀ (fuel : Nat) (a : List Char), a.length ≤ fuel →
      matchTotalGo pop fuel a a = a.length := by
  intro fuel
  induction fuel with
  | zero =>
    intro a h
    have hz : a.length = 0 := Nat.le_zero.1 h
    rw [hz]
    rfl
  | succ f ih =>
    intro a h
    show (if 0 < (extMatch pop a a).2.2 then
        matchTotalGo pop f (a.take (extMatch pop a a).1)
            (a.take (extMatch pop a a).2.1) + (extMatch pop a a).2.2 +
          matchTotalGo pop f
            (a.drop ((extMatch pop a a).1 + (extMatch pop a a).2.2))
            (a.drop ((extMatch pop a a).2.1 + (extMatch pop a a).2.2))
      else 0) = a.length
    rw [extMatch_self]
    dsimp only
    by_cases hlen : 0 < a.length
    · rw [if_pos hlen, List.take_zero, Nat.zero_add, List.drop_length,
        matchTotalGo_nil]
      omega
    · rw [if_neg hlen]
      omega

theorem matchTotal_self (a : List Char) : matchTotal a a = a.length :=
  matchTotalGo_self (isPopular a) a.length a (Nat.le_refl _)

theorem extMatch_disjoint (pop : Char → Bool) (a b : List Char)
    (h : ∀ c ∈ a, c ∉ b) : extMatch pop a b = (0, 0, 0) := by
  have hz : ∀ i j, commonRunNoPop pop (a.drop i) (b.drop j) = 0 := by
    intro i j
    by_contra hne
    obtain ⟨c, hca, hcb⟩ := commonRunNoPop_pos_mem pop (Nat.pos_of_ne_zero hne)
    exact h c ((List.drop_sublist i a).subset hca)
      ((List.drop_sublist j b).subset hcb)
  have hK : bestK pop a b = 0 := by
    rcases natMax_mem ((pairList a.length b.length).map
        (fun p => commonRunNoPop pop (a.drop p.1) (b.drop p.2))) with h0 | hm
    · exact h0
    · obtain ⟨p, _, hp⟩ := List.mem_map.1 hm
      rw [show bestK pop a b = natMax ((pairList a.length b.length).map
        (fun p => commonRunNoPop pop (a.drop p.1) (b.drop p.2))) from rfl,
        ← hp]
      exact hz p.1 p.2
  have hbm : bestMatch pop a b = (0, 0, 0) := by
    unfold bestMatch
    rw [if_pos hK]
  have hcr : commonRun a b = 0 := by
    by_contra hne
    obtain ⟨c, hca, hcb⟩ := commonRun_pos_mem (Nat.pos_of_ne_zero hne)
    exact h c hca hcb
  rw [extMatch_def, hbm]
  simp [commonRun, hcr]

theorem matchTotal_disjoint (a b : List Char) (h : ∀ c ∈ a, c ∉ b) :
    matchTotal a b = 0 := by
  unfold matchTotal
  cases hf : a.length with
  | zero => rfl
  | succ f =>
    show (if 0 < (extMatch (isPopular b) a b).2.2 then _ else 0) = 0
    rw [extMatch_disjoint (isPopular b) a b h]
    simp
theorem similarity_self (a : List Char) : similarity a a = 1 := by
  unfold similarity
  by_cases h : a.length + a.length = 0
  · rw [if_pos h]
  · rw [if_neg h, matchTotal_self]
    have hl : 0 < a.length := by omega
    have hq : (0 : ℚ) < (a.length : ℚ) := by exact_mod_cast hl
    rw [div_eq_one_iff_eq (by linarith)]
    ring

theorem similarity_nonneg (a b : List Char) : 0 ≤ similarity a b := by
  unfold similarity
  split
  · exact zero_le_one
  · positivity

theorem similarity_le_one (a b : List Char) : similarity a b ≤ 1 := by
  unfold similarity
  split
  · exact le_refl 1
  · next h =>
    have hl : 0 < a.length + b.length := Nat.pos_of_ne_zero h
    have hq : (0 : ℚ) < (a.length : ℚ) + (b.length : ℚ) := by
      exact_mod_cast hl
    rw [div_le_one hq]
    have hm : 2 * matchTotal a b ≤ a.length + b.length := by
      have h1 := matchTotal_le_left a b
      have h2 := matchTotal_le_right a b
      omega
    exact_mod_cast hm

theorem similarity_disjoint (a b : List Char) (h : ∀ c ∈ a, c ∉ b)
    (hne : a.length + b.length ≠ 0) : similarity a b = 0 := by
  unfold similarity
  rw [if_neg hne, matchTotal_disjoint a b h]
  simp

/-! ### Claim theorems -/

/-- C8: normalization is deterministic (same input yields the same output)
and idempotent, both on raw text (`normalize(normalize(x)) == normalize(x)`
for the trim-plus-lower-case transformation) and on whole records. -/
theorem claim_C8 :
    (∀ t : List Char, normalizeText (normalizeText t) = normalizeText t) ∧
    (∀ t₁ t₂ : List Char, t₁ = t₂ → normalizeText t₁ = normalizeText t₂) ∧
    (∀ r : Record, normalize (normalize r) = normalize r) :=
  ⟨normalizeText_normalizeText, fun t₁ t₂ h => by rw [h],
   normalize_normalize⟩

/-- Witness for C8 at the concrete text `"  Hello  "`. -/
theorem claim_C8_witness :
    normalizeText (normalizeText ("  Hello  ".toList)) =
      normalizeText ("  Hello  ".toList) ∧
    normalizeText ("  Hello  ".toList) = normalizeText ("  Hello  ".toList) :=
  ⟨claim_C8.1 _, claim_C8.2.1 _ _ rfl⟩

/-- C3 counterexample: the similarity ratio of the code
(`difflib.SequenceMatcher.ratio`) is not symmetric —
`ratio("ab","bacb") = 2/3` while `ratio("bacb","ab") = 1/3` — and two empty
strings have (vacuously) disjoint character multisets yet ratio `1.0`, not
`0.0`. -/
theorem claim_C3_cex :
    similarity ("ab".toList) ("bacb".toList) ≠
      similarity ("bacb".toList) ("ab".toList) ∧
    similarity ([] : List Char) ([] : List Char) ≠ 0 := by
  have m1 : matchTotal ("ab".toList) ("bacb".toList) = 2 := by decide
  have m2 : matchTotal ("bacb".toList) ("ab".toList) = 1 := by decide
  have l1 : ("ab".toList).length = 2 := rfl
  have l2 : ("bacb".toList).length = 4 := rfl
  constructor
  · unfold similarity
    rw [if_neg (by decide), if_neg (by decide), m1, m2, l1, l2]
    norm_num
  · norm_num [similarity]

/-- C3 (amended): the ratio satisfies `ratio(a,a) = 1` for every string,
`0 ≤ ratio(a,b) ≤ 1` for all strings, and `ratio(a,b) = 0` when the two
strings have disjoint character multisets and at least one of them is
non-empty; symmetry does not hold in general. -/
theorem claim_C3_amended (a b : List Char) :
    similarity a a = 1 ∧ 0 ≤ similarity a b ∧ similarity a b ≤ 1 ∧
      ((∀ c ∈ a, c ∉ b) → a.length + b.length ≠ 0 → similarity a b = 0) :=
  ⟨similarity_self a, similarity_nonneg a b, similarity_le_one a b,
   fun h hne => similarity_disjoint a b h hne⟩

/-- Witness for the amended C3 at the concrete strings `"xy"`, `"ab"`. -/
theorem claim_C3_witness :
    similarity ("xy".toList) ("xy".toList) = 1 ∧
    similarity ("xy".toList) ("ab".toList) = 0 :=
  ⟨(claim_C3_amended "xy".toList "ab".toList).1,
   (claim_C3_amended "xy".toList "ab".toList).2.2.2 (by decide) (by decide)⟩

/-- C2: `classify` sets the category to the category of the first keyword
of the table (protest, threat, outage, attack — in that order) occurring as
a substring of the text, `UNCLASSIFIED` when none occurs; in particular a
text containing both "protest" and "threat" gets `CIVIL_ACTIVITY`. -/
theorem claim_C2 (r : Record) :
    (classify r).category = some (classifyLoop CATEGORIES r.text) ∧
    (containsSub "protest".toList r.text = true →
      classifyLoop CATEGORIES r.text = "CIVIL_ACTIVITY") ∧
    (containsSub "protest".toList r.text = false →
      containsSub "threat".toList r.text = true →
      classifyLoop CATEGORIES r.text = "SECURITY_ALERT") ∧
    (containsSub "protest".toList r.text = false →
      containsSub "threat".toList r.text = false →
      containsSub "outage".toList r.text = true →
      classifyLoop CATEGORIES r.text = "INFRASTRUCTURE") ∧
    (containsSub "protest".toList r.text = false →
      containsSub "threat".toList r.text = false →
      containsSub "outage".toList r.text = false →
      containsSub "attack".toList r.text = true →
      classifyLoop CATEGORIES r.text = "CRISIS_EVENT") ∧
    (containsSub "protest".toList r.text = false →
      containsSub "threat".toList r.text = false →
      containsSub "outage".toList r.text = false →
      containsSub "attack".toList r.text = false →
      classifyLoop CATEGORIES r.text = "UNCLASSIFIED") ∧
    (containsSub "protest".toList r.text = true →
      containsSub "threat".toList r.text = true →
      classifyLoop CATEGORIES r.text = "CIVIL_ACTIVITY") := by
  refine ⟨rfl, ?_, ?_, ?_, ?_, ?_, ?_⟩
  · intro h1; simp only [classifyLoop, CATEGORIES, h1]; rfl
  · intro h1 h2; simp only [classifyLoop, CATEGORIES, h1, h2]; rfl
  · intro h1 h2 h3; simp only [classifyLoop, CATEGORIES, h1, h2, h3]; rfl
  · intro h1 h2 h3 h4
    simp only [classifyLoop, CATEGORIES, h1, h2, h3, h4]; rfl
  · intro h1 h2 h3 h4
    simp only [classifyLoop, CATEGORIES, h1, h2, h3, h4]; rfl
  · intro h1 _; simp only [classifyLoop, CATEGORIES, h1]; rfl

/-- Witness for C2: a text containing both "protest" and "threat" is
classified `CIVIL_ACTIVITY`. -/
theorem claim_C2_witness :
    (classify ⟨"s", "protest threat".toList, "t", [], none, none⟩).category =
      some "CIVIL_ACTIVITY" := by
  have h := claim_C2 ⟨"s", "protest threat".toList, "t", [], none, none⟩
  have h2 := h.2.2.2.2.2.2 (by decide) (by decide)
  rw [h.1, h2]

/-- C9: `classify` changes only the category field; source, text,
received_at, meta and entities are untouched. -/
theorem claim_C9 (r : Record) :
    (classify r).source = r.source ∧ (classify r).text = r.text ∧
    (classify r).received_at = r.received_at ∧ (classify r).meta = r.meta ∧
    (classify r).entities = r.entities ∧
    (classify r).category = some (classifyLoop CATEGORIES r.text) :=
  ⟨rfl, rfl, rfl, rfl, rfl, rfl⟩

theorem is_duplicate_eq_false (hsh : List Char → String) (evs : List Row)
    (text : List Char) :
    is_duplicate hsh evs text = false ↔
      (∀ r ∈ evs, r.hash ≠ hsh text) ∧
        ∀ r ∈ evs, similarity text r.text ≤ 9 / 10 := by
  unfold is_duplicate
  split
  · next h =>
    simp only [List.any_eq_true, decide_eq_true_eq] at h
    obtain ⟨r, hr, heq⟩ := h
    constructor
    · intro hf; exact absurd hf (by simp)
    · intro hc; exact absurd heq (hc.1 r hr)
  · next h =>
    simp only [List.any_eq_true, decide_eq_true_eq, not_exists, not_and] at h
    simp only [List.any_eq_false, decide_eq_true_eq, not_lt]
    constructor
    · intro hratio
      exact ⟨fun r hr => h r hr, hratio⟩
    · intro hc
      exact hc.2

/-- C1: `validate_and_store` accepts exactly when the text has length at
least 5, its fingerprint is absent from the store, and every stored text
has similarity ratio at most 0.9 against it (so a ratio of exactly 0.9
does not reject); on rejection the store is unchanged, on acceptance the
event's row is appended. -/
theorem claim_C1 (hsh : List Char → String) (rec : Record) (evs : List Row) :
    ((validate_and_store hsh rec evs).1 = true ↔
      5 ≤ rec.text.length ∧ (∀ r ∈ evs, r.hash ≠ hsh rec.text) ∧
        ∀ r ∈ evs, similarity rec.text r.text ≤ 9 / 10) ∧
    ((validate_and_store hsh rec evs).1 = false →
      (validate_and_store hsh rec evs).2 = evs) ∧
    ((validate_and_store hsh rec evs).1 = true →
      (validate_and_store hsh rec evs).2 =
        evs ++ [⟨rec.source, rec.text, hsh rec.text, rec.received_at,
          rec.meta⟩]) := by
  unfold validate_and_store
  by_cases hlen : rec.text.length < 5
  · have hb : (decide (rec.text.length < 5) ||
        is_duplicate hsh evs rec.text) = true := by
      rw [decide_eq_true hlen]; rfl
    rw [if_pos hb]
    refine ⟨?_, fun _ => rfl, fun hf => absurd hf (by simp)⟩
    simp only [Bool.false_eq_true, false_iff, not_and]
    intro h5
    omega
  · cases hdup : is_duplicate hsh evs rec.text with
    | true =>
      have hb : (decide (rec.text.length < 5) ||
          is_duplicate hsh evs rec.text) = true := by
        rw [hdup]; simp
      rw [if_pos hb]
      refine ⟨?_, fun _ => rfl, fun hf => absurd hf (by simp)⟩
      simp only [Bool.false_eq_true, false_iff, not_and]
      intro _ hb hc
      have hfalse : is_duplicate hsh evs rec.text = false :=
        (is_duplicate_eq_false hsh evs rec.text).2 ⟨hb, hc⟩
      rw [hfalse] at hdup
      exact absurd hdup (by simp)
    | false =>
      have hb : (decide (rec.text.length < 5) ||
          is_duplicate hsh evs rec.text) = false := by
        rw [decide_eq_false hlen, hdup]; rfl
      rw [if_neg (by rw [hb]; simp)]
      refine ⟨?_, fun hf => absurd hf (by simp), fun _ => rfl⟩
      simp only [true_iff]
      obtain ⟨h1, h2⟩ := (is_duplicate_eq_false hsh evs rec.text).1 hdup
      exact ⟨by omega, h1, h2⟩

/-- Witness for C1: a fresh five-character text is accepted and appended
to an empty store. -/
theorem claim_C1_witness :
    (validate_and_store (fun t => String.mk t)
        ⟨"s", "hello".toList, "t", [], none, none⟩ []).1 = true ∧
    (validate_and_store (fun t => String.mk t)
        ⟨"s", "hello".toList, "t", [], none, none⟩ []).2 =
      [⟨"s", "hello".toList, String.mk "hello".toList, "t", []⟩] := by
  have h := claim_C1 (fun t => String.mk t)
    ⟨"s", "hello".toList, "t", [], none, none⟩ []
  have ht : (validate_and_store (fun t => String.mk t)
      ⟨"s", "hello".toList, "t", [], none, none⟩ []).1 = true :=
    h.1.2 ⟨by decide, by simp, by simp⟩
  exact ⟨ht, h.2.2 ht⟩

theorem validate_grows (hsh : List Char → String) (rec : Record)
    (evs : List Row) : evs <+: (validate_and_store hsh rec evs).2 := by
  simp only [validate_and_store]
  split
  · exact ⟨[], List.append_nil _⟩
  · exact ⟨_, rfl⟩

theorem validate_unique (hsh : List Char → String) (rec : Record)
    (evs : List Row) (h : UniqueHashes evs) :
    UniqueHashes (validate_and_store hsh rec evs).2 := by
  simp only [validate_and_store]
  split
  · exact h
  · next hcond =>
    have hdup : is_duplicate hsh evs rec.text = false := by
      cases hid : is_duplicate hsh evs rec.text with
      | false => rfl
      | true => rw [hid] at hcond; simp at hcond
    have hhash : ∀ r ∈ evs, r.hash ≠ hsh rec.text :=
      ((is_duplicate_eq_false hsh evs rec.text).1 hdup).1
    unfold UniqueHashes at h ⊢
    rw [List.map_append, List.nodup_append]
    refine ⟨h, List.nodup_singleton _, ?_⟩
    intro a ha hb
    obtain ⟨r, hr, rfl⟩ := List.mem_map.1 ha
    simp at hb
    exact hhash r hr hb

theorem process_event_snd (hsh : List Char → String) (s : String)
    (t : List Char) (r : String) (m : List (String × String))
    (evs : List Row) :
    (process_event hsh s t r m evs).2 =
      (validate_and_store hsh (normalize (ingest s t r m)) evs).2 := by
  simp only [process_event]
  split <;> rfl

theorem runOp_grows (hsh : List Char → String) (evs : List Row) (op : Op) :
    evs <+: runOp hsh evs op := by
  cases op with
  | processEvent s t r m =>
    show evs <+: (process_event hsh s t r m evs).2
    rw [process_event_snd]
    exact validate_grows _ _ _
  | analyzeAll => exact ⟨[], List.append_nil _⟩

theorem runOp_unique (hsh : List Char → String) (evs : List Row) (op : Op)
    (h : UniqueHashes evs) : UniqueHashes (runOp hsh evs op) := by
  cases op with
  | processEvent s t r m =>
    show UniqueHashes (process_event hsh s t r m evs).2
    rw [process_event_snd]
    exact validate_unique _ _ _ h
  | analyzeAll => exact h

/-- C5: under any sequence of pipeline operations the stored event list
only grows (the old store is a prefix of the new one) and the invariant
that no two stored rows share a fingerprint is preserved. -/
theorem claim_C5 (hsh : List Char → String) (ops : List Op)
    (evs : List Row) (h : UniqueHashes evs) :
    evs <+: runOps hsh evs ops ∧ UniqueHashes (runOps hsh evs ops) := by
  induction ops generalizing evs with
  | nil => exact ⟨⟨[], List.append_nil _⟩, h⟩
  | cons op t ih =>
    have h2 := runOp_unique hsh evs op h
    have ht := ih (runOp hsh evs op) h2
    simp only [runOps, List.foldl_cons] at ht ⊢
    exact ⟨(runOp_grows hsh evs op).trans ht.1, ht.2⟩

/-- Witness for C5: one accepted submission starting from the empty
store. -/
theorem claim_C5_witness :
    UniqueHashes ([] : List Row) ∧
      (([] : List Row) <+: runOps (fun t => String.mk t) []
          [Op.processEvent "OSINT" ("hello attack".toList) "t0" []] ∧
        UniqueHashes (runOps (fun t => String.mk t) []
          [Op.processEvent "OSINT" ("hello attack".toList) "t0" []])) :=
  ⟨by simp [UniqueHashes], claim_C5 (fun t => String.mk t)
    [Op.processEvent "OSINT" ("hello attack".toList) "t0" []] []
    (by simp [UniqueHashes])⟩

theorem lookupCount_bump_self (s : List (String × Nat)) (c : String) :
    lookupCount (bump s c) c = lookupCount s c + 1 := by
  induction s with
  | nil => simp [bump, lookupCount]
  | cons p rest ih =>
    obtain ⟨d, n⟩ := p
    by_cases hdc : d = c
    · simp [bump, lookupCount, hdc]
    · simp [bump, lookupCount, hdc, ih]

theorem lookupCount_bump_ne (s : List (String × Nat)) (c d : String)
    (h : d ≠ c) : lookupCount (bump s c) d = lookupCount s d := by
  have hcd : ¬c = d := fun he => h he.symm
  induction s with
  | nil => simp [bump, lookupCount, hcd]
  | cons p rest ih =>
    obtain ⟨e, n⟩ := p
    by_cases hec : e = c
    · subst hec
      simp [bump, lookupCount, hcd]
    · simp [bump, lookupCount, hec, ih]

theorem sumCounts_bump (s : List (String × Nat)) (c : String) :
    sumCounts (bump s c) = sumCounts s + 1 := by
  induction s with
  | nil => simp [bump, sumCounts]
  | cons p rest ih =>
    obtain ⟨d, n⟩ := p
    by_cases hdc : d = c
    · simp [bump, sumCounts, hdc]
      omega
    · simp [bump, sumCounts, hdc] at ih ⊢
      omega

theorem analyze_aux_lookup :
    ∀ (rs : List Record) (s : List (String × Nat)) (c : String),
      lookupCount (rs.foldl (fun s r => bump s (catKey r)) s) c =
        lookupCount s c + rs.countP (fun r => catKey r = c) := by
  intro rs
  induction rs with
  | nil => intro s c; simp
  | cons r t ih =>
    intro s c
    rw [List.foldl_cons, ih, List.countP_cons]
    by_cases hc : catKey r = c
    · rw [← hc, lookupCount_bump_self]
      simp [hc]
      omega
    · rw [lookupCount_bump_ne s (catKey r) c (fun he => hc he.symm)]
      simp [hc]

theorem analyze_aux_sum :
    ∀ (rs : List Record) (s : List (String × Nat)),
      sumCounts (rs.foldl (fun s r => bump s (catKey r)) s) =
        sumCounts s + rs.length := by
  intro rs
  induction rs with
  | nil => intro s; simp
  | cons r t ih =>
    intro s
    rw [List.foldl_cons, ih, sumCounts_bump, List.length_cons]
    omega

/-- C6: `analyze` counts every record exactly once under its current
category (records without a category under `UNCLASSIFIED`), the counts sum
to the number of records, and appending records never decreases a
count. -/
theorem claim_C6 (rs ts : List Record) (c : String) :
    lookupCount (analyze rs) c = rs.countP (fun r => catKey r = c) ∧
    sumCounts (analyze rs) = rs.length ∧
    lookupCount (analyze rs) c ≤ lookupCount (analyze (rs ++ ts)) c ∧
    (∀ r ∈ rs, r.category = none → catKey r = "UNCLASSIFIED") := by
  refine ⟨?_, ?_, ?_, ?_⟩
  · rw [show analyze rs = rs.foldl (fun s r => bump s (catKey r)) [] from rfl,
      analyze_aux_lookup]
    simp [lookupCount]
  · rw [show analyze rs = rs.foldl (fun s r => bump s (catKey r)) [] from rfl,
      analyze_aux_sum]
    simp [sumCounts]
  · rw [show analyze rs = rs.foldl (fun s r => bump s (catKey r)) [] from rfl,
      show analyze (rs ++ ts) =
        (rs ++ ts).foldl (fun s r => bump s (catKey r)) [] from rfl,
      analyze_aux_lookup, analyze_aux_lookup, List.countP_append]
    omega
  · intro r _ hr
    simp [catKey, hr]

/-- Witness for C6: a single record with no category is counted under
`UNCLASSIFIED`. -/
theorem claim_C6_witness :
    lookupCount (analyze [⟨"s", "abc".toList, "t", [], none, none⟩])
        "UNCLASSIFIED" = 1 ∧
      catKey ⟨"s", "abc".toList, "t", [], none, none⟩ = "UNCLASSIFIED" := by
  have h := claim_C6 [⟨"s", "abc".toList, "t", [], none, none⟩] []
    "UNCLASSIFIED"
  refine ⟨?_, h.2.2.2 _ (by simp) rfl⟩
  rw [h.1]
  decide

theorem validate_fst (hsh : List Char → String) (rec : Record)
    (evs : List Row) :
    (validate_and_store hsh rec evs).1 =
      !(decide (rec.text.length < 5) || is_duplicate hsh evs rec.text) := by
  simp only [validate_and_store]
  cases hc : (decide (rec.text.length < 5) || is_duplicate hsh evs rec.text) with
  | true => rfl
  | false => rfl

theorem validate_snd (hsh : List Char → String) (rec : Record)
    (evs : List Row) :
    (validate_and_store hsh rec evs).2 =
      if (decide (rec.text.length < 5) || is_duplicate hsh evs rec.text) = true
      then evs
      else evs ++ [⟨rec.source, rec.text, hsh rec.text, rec.received_at,
        rec.meta⟩] := by
  simp only [validate_and_store]
  cases hc : (decide (rec.text.length < 5) || is_duplicate hsh evs rec.text) with
  | true => rfl
  | false => rfl

theorem is_duplicate_mem (hsh : List Char → String) (evs : List Row)
    (text : List Char) (r : Row) (hr : r ∈ evs)
    (hh : r.hash = hsh text) : is_duplicate hsh evs text = true := by
  unfold is_duplicate
  rw [if_pos]
  simp only [List.any_eq_true, decide_eq_true_eq]
  exact ⟨r, hr, hh⟩

/-- C4: submitting the identical text twice makes the second
`process_event` call return the rejection value (status `"rejected"`,
reason mentioning duplicate, no event) — as a value of the function, not
an exception — regardless of the first call's outcome and of the source,
meta and timestamp arguments. -/
theorem claim_C4 (hsh : List Char → String) (source : String)
    (text : List Char) (t₁ t₂ : String) (m₁ m₂ : List (String × String))
    (st : List Row) :
    (process_event hsh source text t₂ m₂
        (process_event hsh source text t₁ m₁ st).2).1 =
      ⟨"rejected", some "duplicate_or_invalid", none⟩ ∧
    containsSub ("duplicate".toList) ("duplicate_or_invalid".toList) =
      true := by
  refine ⟨?_, by decide⟩
  rw [process_event_snd]
  simp only [process_event]
  have ht : (normalize (ingest source text t₂ m₂)).text =
      (normalize (ingest source text t₁ m₁)).text := rfl
  suffices hf : (validate_and_store hsh (normalize (ingest source text t₂ m₂))
      (validate_and_store hsh (normalize (ingest source text t₁ m₁)) st).2).1 =
        false by
    rw [hf]
    simp
  rw [validate_fst, ht, validate_snd]
  cases hc : (decide ((normalize (ingest source text t₁ m₁)).text.length < 5)
      || is_duplicate hsh st (normalize (ingest source text t₁ m₁)).text) with
  | true =>
    show (!(decide ((normalize (ingest source text t₁ m₁)).text.length < 5)
        || is_duplicate hsh st
          (normalize (ingest source text t₁ m₁)).text)) = false
    rw [hc]
    rfl
  | false =>
    show (!(decide ((normalize (ingest source text t₁ m₁)).text.length < 5)
        || is_duplicate hsh
          (st ++ [⟨(normalize (ingest source text t₁ m₁)).source,
            (normalize (ingest source text t₁ m₁)).text,
            hsh (normalize (ingest source text t₁ m₁)).text,
            (normalize (ingest source text t₁ m₁)).received_at,
            (normalize (ingest source text t₁ m₁)).meta⟩])
          (normalize (ingest source text t₁ m₁)).text)) = false
    have hmem : is_duplicate hsh
        (st ++ [⟨(normalize (ingest source text t₁ m₁)).source,
          (normalize (ingest source text t₁ m₁)).text,
          hsh (normalize (ingest source text t₁ m₁)).text,
          (normalize (ingest source text t₁ m₁)).received_at,
          (normalize (ingest source text t₁ m₁)).meta⟩])
        (normalize (ingest source text t₁ m₁)).text = true :=
      is_duplicate_mem hsh _ _
        ⟨(normalize (ingest source text t₁ m₁)).source,
          (normalize (ingest source text t₁ m₁)).text,
          hsh (normalize (ingest source text t₁ m₁)).text,
          (normalize (ingest source text t₁ m₁)).received_at,
          (normalize (ingest source text t₁ m₁)).meta⟩
        (List.mem_append_right st (List.mem_singleton.2 rfl)) rfl
    rw [hmem]
    simp

/-- C10: with the store fixed, the verdict and the assigned category of
`process_event` depend only on the text: calls differing in source, meta
and timestamp agree on status and on the category of the returned
event. -/
theorem claim_C10 (hsh : List Char → String) (st : List Row)
    (text : List Char) (s₁ s₂ t₁ t₂ : String)
    (m₁ m₂ : List (String × String)) :
    (process_event hsh s₁ text t₁ m₁ st).1.status =
      (process_event hsh s₂ text t₂ m₂ st).1.status ∧
    ((process_event hsh s₁ text t₁ m₁ st).1.event.map fun e => e.category) =
      ((process_event hsh s₂ text t₂ m₂ st).1.event.map fun e =>
        e.category) := by
  simp only [process_event]
  have ht : (normalize (ingest s₂ text t₂ m₂)).text =
      (normalize (ingest s₁ text t₁ m₁)).text := rfl
  rw [validate_fst, validate_fst, ht]
  cases hc : (decide ((normalize (ingest s₁ text t₁ m₁)).text.length < 5)
      || is_duplicate hsh st (normalize (ingest s₁ text t₁ m₁)).text) with
  | true => simp
  | false => simp [enrich, classify, normalize, ingest]

/-- C7 counterexample: an oracle response that decodes as JSON but lacks
the `category` key (here the empty object) is accepted as-is: the event is
stored with a null category, not with `UNCLASSIFIED`. -/
theorem claim_C7_cex :
    ((apiIngest (fun t => String.mk t) (MLResp.obj []) "src"
        ("hello attack".toList) [] "t0" []).2.map fun r => r.category) =
      [none] ∧
    (none : Option Jv) ≠ some (Jv.s "UNCLASSIFIED") :=
  ⟨by decide, by decide⟩

/-- C7 (amended): when the classification oracle is unreachable or its
response fails to decode as JSON, the ingest endpoint stores the event
with category `UNCLASSIFIED` and confidence 0 and reports success; a
response decoding to a JSON object is stored verbatim with no propagated
error, its category field used as-is even when absent; a response
decoding to non-object JSON makes `ml_out.get("category")` raise outside
the `try`: the error propagates and nothing is stored. -/
theorem claim_C7_amended (hsh : List Char → String) (source : String)
    (text : List Char) (meta : List (String × String))
    (received_at : String) (store : List ApiRow)
    (h5 : ¬(stripList text).length < 5)
    (hdup : check_duplicate hsh store (stripList text) = false) :
    (apiIngest hsh MLResp.failed source text meta received_at store).1 =
      Except.ok ⟨"accepted", none, some store.length,
        some (Jv.s "UNCLASSIFIED")⟩ ∧
    (apiIngest hsh MLResp.failed source text meta received_at store).2 =
      store ++ [⟨source, stripList text, received_at,
        make_hash hsh (stripList text), meta, some (Jv.s "UNCLASSIFIED"),
        [("category", Jv.s "UNCLASSIFIED"), ("confidence", Jv.n 0)]⟩] ∧
    jget [("category", Jv.s "UNCLASSIFIED"), ("confidence", Jv.n 0)]
        "confidence" = some (Jv.n 0) ∧
    (∀ o : List (String × Jv), ∃ resp : ApiResp,
      (apiIngest hsh (MLResp.obj o) source text meta received_at store).1 =
        Except.ok resp ∧
      (apiIngest hsh (MLResp.obj o) source text meta received_at
        store).2.length = store.length + 1) ∧
    (apiIngest hsh MLResp.nonObj source text meta received_at store).1 =
      Except.error ⟨500, "AttributeError"⟩ ∧
    (apiIngest hsh MLResp.nonObj source text meta received_at store).2 =
      store := by
  have hd : ¬check_duplicate hsh store (stripList text) = true := by
    rw [hdup]; exact Bool.false_ne_true
  refine ⟨?_, ?_, by decide, ?_, ?_, ?_⟩
  · simp only [apiIngest]
    rw [if_neg h5, if_neg hd]
    rfl
  · simp only [apiIngest]
    rw [if_neg h5, if_neg hd]
    rfl
  · intro o
    refine ⟨⟨"accepted", none, some store.length,
      jget o "category"⟩, ?_, ?_⟩
    · simp only [apiIngest]
      rw [if_neg h5, if_neg hd]
    · simp only [apiIngest]
      rw [if_neg h5, if_neg hd]
      simp
  · simp only [apiIngest]
    rw [if_neg h5, if_neg hd]
  · simp only [apiIngest]
    rw [if_neg h5, if_neg hd]

/-- Witness for the amended C7 at a concrete fresh text and empty
store. -/
theorem claim_C7_witness :
    ¬(stripList ("hello attack".toList)).length < 5 ∧
    (apiIngest (fun t => String.mk t) MLResp.failed "src"
        ("hello attack".toList) [] "t0" []).1 =
      Except.ok ⟨"accepted", none, some 0, some (Jv.s "UNCLASSIFIED")⟩ :=
  ⟨by decide,
   (claim_C7_amended (fun t => String.mk t) "src" ("hello attack".toList)
     [] "t0" [] (by decide) (by decide)).1⟩

end InfoSup
